import Mathlib

/-!
Verification of the `nap` master/slave database router (`db.go`).

The router (`DB`) holds an ordered list of physical connections (`pdbs`,
index 0 is the master) and a `uint64` round-robin counter (`count`).
Physical connections are opaque: each delegated driver call
(`Exec`, `Begin`, `Ping`, ...) is passed in as a function argument, so a
router operation is modelled as a pure state transformer returning the
delegated result (an `Option`, `none` when the Go code would index out of
bounds and panic) together with the router state after the call.
Machine integers: the counter is a `Nat` reduced modulo `2 ^ 64` exactly
where Go's `atomic.AddUint64` wraps.
-/

namespace Nap

/-- Modulus of Go's `uint64`, the type of the round-robin counter. -/
def U64 : Nat := 2 ^ 64

/-- `DB` from db.go: the ordered physical databases and the
monotonically incrementing (wrapping) selection counter. -/
structure DB (Conn : Type) where
  pdbs : List Conn
  count : Nat
  deriving Repr, DecidableEq

variable {Conn Err R Dest Arg E D : Type}

/-- `slave` from db.go: for `n <= 1` return 0 without touching the counter;
otherwise wrap-increment the counter (`atomic.AddUint64(&db.count, 1)`)
and return `1 + (newCount % (n-1))`, together with the updated state. -/
def DB.slave (db : DB Conn) (n : Nat) : Nat × DB Conn :=
  if n ≤ 1 then (0, db)
  else
    let c := (db.count + 1) % U64
    (1 + c % (n - 1), { db with count := c })

/-- `Master` from db.go: `db.pdbs[0]` (`none` models the index panic on an
empty list). The receiver is not mutated. -/
def DB.Master (db : DB Conn) : Option Conn :=
  db.pdbs.get? 0

/-- `Slave` from db.go: `db.pdbs[db.slave(len(db.pdbs))]`; the selection
call updates the counter, then the chosen slot is read. -/
def DB.Slave (db : DB Conn) : Option Conn × DB Conn :=
  let p := db.slave db.pdbs.length
  (db.pdbs.get? p.1, p.2)

/-- `Driver` from db.go: `db.pdbs[0].Driver()`, with the driver-introspection
call of the underlying connection passed in as `driverF`. -/
def DB.Driver (db : DB Conn) (driverF : Conn → R) : Option R × DB Conn :=
  ((db.pdbs.get? 0).map driverF, db)

/-- `Begin` from db.go: `db.pdbs[0].Begin()`. -/
def DB.Begin (db : DB Conn) (beginF : Conn → R) : Option R × DB Conn :=
  ((db.pdbs.get? 0).map beginF, db)

/-- `Exec` from db.go: `db.pdbs[0].Exec(query, args...)`. -/
def DB.Exec (db : DB Conn) (execF : Conn → String → List Arg → R)
    (query : String) (args : List Arg) : Option R × DB Conn :=
  ((db.pdbs.get? 0).map (fun c => execF c query args), db)

/-- `Preparex` from db.go: `db.Master().Preparex(query)`. -/
def DB.Preparex (db : DB Conn) (preparexF : Conn → String → R)
    (query : String) : Option R × DB Conn :=
  (db.Master.map (fun c => preparexF c query), db)

/-- `PreparexSlave` from db.go: `db.Slave().Preparex(query)`. -/
def DB.PreparexSlave (db : DB Conn) (preparexF : Conn → String → R)
    (query : String) : Option R × DB Conn :=
  let p := db.Slave
  (p.1.map (fun c => preparexF c query), p.2)

/-- `Select` from db.go: `db.Slave().Select(dest, query, args...)`. -/
def DB.Select (db : DB Conn) (selectF : Conn → Dest → String → List Arg → R)
    (dest : Dest) (query : String) (args : List Arg) : Option R × DB Conn :=
  let p := db.Slave
  (p.1.map (fun c => selectF c dest query args), p.2)

/-- `QueryxSlave` from db.go: `db.Slave().Queryx(query, args...)`. -/
def DB.QueryxSlave (db : DB Conn) (queryxF : Conn → String → List Arg → R)
    (query : String) (args : List Arg) : Option R × DB Conn :=
  let p := db.Slave
  (p.1.map (fun c => queryxF c query args), p.2)

/-- `SetMaxIdleConns` from db.go: apply the underlying setter to every
physical database in order; the returned list records the delegated calls. -/
def DB.SetMaxIdleConns (db : DB Conn) (setF : Conn → Int → E) (n : Int) :
    List E × DB Conn :=
  (db.pdbs.map (fun c => setF c n), db)

/-- `SetMaxOpenConns` from db.go: apply the underlying setter to every
physical database in order. -/
def DB.SetMaxOpenConns (db : DB Conn) (setF : Conn → Int → E) (n : Int) :
    List E × DB Conn :=
  (db.pdbs.map (fun c => setF c n), db)

/-- `SetConnMaxLifetime` from db.go: apply the underlying setter to every
physical database in order (`d` is the opaque `time.Duration`). -/
def DB.SetConnMaxLifetime (db : DB Conn) (setF : Conn → D → E) (d : D) :
    List E × DB Conn :=
  (db.pdbs.map (fun c => setF c d), db)

/-- First `some` of a list of optional errors: the aggregation that keeps
exactly one failure. -/
def firstSome : List (Option Err) → Option Err
  | [] => none
  | some e :: _ => some e
  | none :: rest => firstSome rest

/-- Modelled from the spec: the `scatter` fan-out helper is called in db.go
but its definition is not among the provided sources. Spec §4.1: run
`work i` once for every `i` in `0..count-1`, wait for all, and return no
error when all succeed, otherwise exactly one of the failures
(`count == 0` returns no error without starting any task). The concurrent
fan-out is modelled sequentially: `work` is evaluated once at each index of
`List.range count` and `firstSome` keeps a single representative failure. -/
def scatter (count : Nat) (work : Nat → Option Err) : Option Err :=
  firstSome ((List.range count).map work)

/-- The indices at which `scatter count work` invokes `work` (each exactly
once, per spec §4.1). -/
def scatterInvocations (count : Nat) : List Nat :=
  List.range count

/-- `Ping` from db.go: scatter `db.pdbs[i].Ping()` over all physical
databases; the router state is not mutated. -/
def DB.Ping (db : DB Conn) (pingF : Conn → Option Err) : Option Err × DB Conn :=
  (scatter db.pdbs.length
    (fun i => match db.pdbs.get? i with
      | some c => pingF c
      | none => none), db)

/-- `Close` from db.go: scatter `db.pdbs[i].Close()` over all physical
databases; the router state is not mutated. -/
def DB.Close (db : DB Conn) (closeF : Conn → Option Err) : Option Err × DB Conn :=
  (scatter db.pdbs.length
    (fun i => match db.pdbs.get? i with
      | some c => closeF c
      | none => none), db)

/-- Go's `strings.Split` for a one-character separator: every occurrence of
`sep` cuts the list, the empty input yields one empty segment. -/
def splitSep (sep : Char) : List Char → List (List Char)
  | [] => [[]]
  | c :: cs =>
    if c = sep then [] :: splitSep sep cs
    else
      match splitSep sep cs with
      | [] => [[c]]
      | r :: rs => (c :: r) :: rs

/-- The error component of an `Except` result (the Go `err` return value). -/
def exceptError : Except Err Conn → Option Err
  | .error e => some e
  | .ok _ => none

/-- `Open` from db.go: split `dataSourceNames` on `';'`, open one physical
database per segment (`openF` embeds `sqlx.Open`), aggregate the open
errors through the scatter fan-out; on any failure return the aggregated
error and no router, otherwise the router whose `pdbs` are the opened
connections in input order with a zero counter. -/
def Open (openF : String → List Char → Except Err Conn)
    (driverName : String) (dataSourceNames : String) : Except Err (DB Conn) :=
  match firstSome (((splitSep ';' dataSourceNames.toList).map
      (fun dsn => openF driverName dsn)).map exceptError) with
  | some e => .error e
  | none =>
    .ok { pdbs := ((splitSep ';' dataSourceNames.toList).map
            (fun dsn => openF driverName dsn)).filterMap Except.toOption,
          count := 0 }

/-- `k` consecutive `slave` selection calls with no interleaving caller:
the list of returned indices and the final router state. -/
def slaveCalls (db : DB Conn) (n : Nat) : Nat → List Nat × DB Conn
  | 0 => ([], db)
  | k + 1 =>
    let p := db.slave n
    let q := slaveCalls p.2 n k
    (p.1 :: q.1, q.2)

/-- A concrete one-argument driver call used to exercise routers built over
`String` connections (stands for `Begin`/`Driver`). -/
def call1 (c : String) : String :=
  "got:" ++ c

/-- A concrete two-argument driver call (stands for `Preparex`). -/
def call2 (c q : String) : String :=
  c ++ "/" ++ q

/-- A concrete query-with-arguments driver call (stands for
`Exec`/`Queryx`). -/
def call3 (c q : String) (a : List String) : String :=
  c ++ "/" ++ q ++ "/" ++ toString a.length

/-- A concrete destination-query driver call (stands for `Select`). -/
def call4 (c dest q : String) (a : List String) : String :=
  c ++ "/" ++ dest ++ "/" ++ q ++ "/" ++ toString a.length

/-- A concrete always-succeeding `sqlx.Open`, keeping the DSN as the
connection. -/
def openOk (driverName : String) (dsn : List Char) : Except String (List Char) :=
  .ok dsn

/-- A concrete `sqlx.Open` that rejects empty DSN segments. -/
def openNonEmpty (driverName : String) (dsn : List Char) : Except String (List Char) :=
  if dsn.isEmpty then .error "empty dsn" else .ok dsn

theorem slave_lt (db : DB Conn) (n : Nat) (h : 1 ≤ n) : (db.slave n).1 < n := by
  by_cases hn : n ≤ 1
  · simp [DB.slave, hn]; omega
  · push_neg at hn
    have hpos : 0 < n - 1 := by omega
    have := Nat.mod_lt ((db.count + 1) % U64) hpos
    simp only [DB.slave, if_neg (by omega : ¬ n ≤ 1)]
    omega

theorem slave_state_of_le_one (db : DB Conn) (n : Nat) (h : n ≤ 1) :
    db.slave n = (0, db) := by
  simp [DB.slave, h]

theorem slave_state_of_lt (db : DB Conn) (n : Nat) (h : 1 < n) :
    db.slave n = (1 + ((db.count + 1) % U64) % (n - 1),
      { db with count := (db.count + 1) % U64 }) := by
  simp [DB.slave, Nat.not_le.mpr h]

/-- C1: for every `n ≥ 1` the replica-selection function `slave` returns an
index in `[0, n-1]`, and for every `n ≤ 1` (in particular `n = 1`) it
returns 0, so the primary doubles as the read target. -/
theorem slave_index_in_range (db : DB Conn) (n : Nat) (h : 1 ≤ n) :
    (db.slave n).1 ≤ n - 1 ∧ (n ≤ 1 → (db.slave n).1 = 0) := by
  constructor
  · have := slave_lt db n h
    omega
  · intro hn
    simp [DB.slave, hn]

/-- C1 witness at `n = 1` and a three-connection router. -/
theorem slave_index_in_range_witness :
    ((1 ≤ 1 ∧ ((DB.mk [0, 1, 2] 5).slave 1).1 ≤ 0 ∧ ((DB.mk [0, 1, 2] 5).slave 1).1 = 0)
      ∧ (1 ≤ 3 ∧ ((DB.mk [0, 1, 2] 5).slave 3).1 ≤ 2)) := by
  have h1 := slave_index_in_range (DB.mk [0, 1, 2] 5) 1 (by decide)
  have h3 := slave_index_in_range (DB.mk [0, 1, 2] 5) 3 (by decide)
  exact ⟨⟨by decide, h1.1, h1.2 (by decide)⟩, ⟨by decide, h3.1⟩⟩

theorem slaveCalls_run (n : Nat) (hn : 1 < n) :
    ∀ (k : Nat) (db : DB Conn), db.count + k < U64 →
      (slaveCalls db n k).1
        = (List.range k).map (fun j => 1 + ((db.count + j + 1) % (n - 1)))
      ∧ (slaveCalls db n k).2.count = db.count + k := by
  intro k
  induction k with
  | zero => intro db _; simp [slaveCalls]
  | succ k ih =>
    intro db hck
    have hc1 : (db.count + 1) % U64 = db.count + 1 := Nat.mod_eq_of_lt (by omega)
    have hstep := slave_state_of_lt db n hn
    have hcount : (db.slave n).2.count = db.count + 1 := by rw [hstep]; simp [hc1]
    obtain ⟨hlist, hcnt⟩ := ih (db.slave n).2 (by omega)
    rw [hcount] at hlist hcnt
    refine ⟨?_, ?_⟩
    · show (db.slave n).1 :: (slaveCalls (db.slave n).2 n k).1 = _
      rw [hlist, hstep, List.range_succ_eq_map, List.map_cons, List.map_map]
      simp only [hc1, List.cons.injEq, Nat.add_zero]
      constructor
      · trivial
      · apply List.map_congr_left
        intro j _
        simp only [Function.comp_apply, Nat.succ_eq_add_one]
        have hj : db.count + 1 + j + 1 = db.count + (j + 1) + 1 := by omega
        rw [hj]
    · show (slaveCalls (db.slave n).2 n k).2.count = _
      omega

/-- C2: for `n > 1` each selection call wrap-increments the counter once and
returns `1 + (newCounter mod (n-1))`; starting from counter 0, `k`
consecutive calls return indices cycling through `1..n-1` in round-robin
order (`j`-th call, 0-based, returns `1 + ((j+1) mod (n-1))`), and for
`n = 4` six calls from counter 0 yield `2, 3, 1, 2, 3, 1`. -/
theorem slave_round_robin (db : DB Conn) (n k : Nat) (hn : 1 < n)
    (h0 : db.count = 0) (hk : k < U64) :
    (db.slave n).2.count = (db.count + 1) % U64
    ∧ (db.slave n).1 = 1 + ((db.count + 1) % U64) % (n - 1)
    ∧ (slaveCalls db n k).1 = (List.range k).map (fun j => 1 + ((j + 1) % (n - 1)))
    ∧ (slaveCalls (DB.mk ([0, 1, 2, 3] : List Nat) 0) 4 6).1 = [2, 3, 1, 2, 3, 1] := by
  have hstep := slave_state_of_lt db n hn
  obtain ⟨hlist, _⟩ := slaveCalls_run n hn k db (by omega)
  rw [h0] at hlist
  refine ⟨by rw [hstep], by rw [hstep], ?_, by decide⟩
  rw [hlist]
  apply List.map_congr_left
  intro j _
  simp

/-- C2 witness: a four-connection router starting from counter 0; six calls
produce the round-robin sequence `2, 3, 1, 2, 3, 1`. -/
theorem slave_round_robin_witness :
    (slaveCalls (DB.mk ([0, 1, 2, 3] : List Nat) 0) 4 6).1 = [2, 3, 1, 2, 3, 1]
    ∧ (slaveCalls (DB.mk ([0, 1, 2, 3] : List Nat) 0) 4 6).1
        = (List.range 6).map (fun j => 1 + ((j + 1) % 3)) := by
  have h := slave_round_robin (DB.mk ([0, 1, 2, 3] : List Nat) 0) 4 6 (by decide) rfl
    (by decide)
  exact ⟨h.2.2.2, by rw [h.2.2.1]⟩

theorem slave_pdbs (db : DB Conn) (n : Nat) : (db.slave n).2.pdbs = db.pdbs := by
  unfold DB.slave
  split <;> rfl

/-- C3: every write-path operation — Exec, Begin, Preparex, Driver — on any
router delegates unconditionally to the physical connection at position 0
(the master), for every query and argument list, leaving the router state
unchanged. -/
theorem write_path_targets_master (db : DB Conn) (c : Conn)
    (execF : Conn → String → List Arg → R) (beginF : Conn → R) (driverF : Conn → R)
    (preparexF : Conn → String → R) (q : String) (a : List Arg)
    (h : db.pdbs.get? 0 = some c) :
    db.Master = some c
    ∧ db.Exec execF q a = (some (execF c q a), db)
    ∧ db.Begin beginF = (some (beginF c), db)
    ∧ db.Driver driverF = (some (driverF c), db)
    ∧ db.Preparex preparexF q = (some (preparexF c q), db) := by
  simp only [List.get?_eq_getElem?] at h
  simp [DB.Master, DB.Exec, DB.Begin, DB.Driver, DB.Preparex, h]

/-- C3 witness: a three-connection router with distinguishable connections;
every write-path operation hits connection "m" at position 0. -/
theorem write_path_targets_master_witness :
    (DB.mk ["m", "s1", "s2"] 7).Master = some "m"
    ∧ (DB.mk ["m", "s1", "s2"] 7).Exec call3 "q" ["x"]
        = (some (call3 "m" "q" ["x"]), DB.mk ["m", "s1", "s2"] 7)
    ∧ (DB.mk ["m", "s1", "s2"] 7).Begin call1 = (some (call1 "m"), DB.mk ["m", "s1", "s2"] 7)
    ∧ (DB.mk ["m", "s1", "s2"] 7).Driver call1 = (some (call1 "m"), DB.mk ["m", "s1", "s2"] 7)
    ∧ (DB.mk ["m", "s1", "s2"] 7).Preparex call2 "q"
        = (some (call2 "m" "q"), DB.mk ["m", "s1", "s2"] 7) := by
  exact write_path_targets_master (DB.mk ["m", "s1", "s2"] 7) "m" call3 call1 call1
    call2 "q" ["x"] rfl

/-- C4: every read-path operation — Select, QueryxSlave, PreparexSlave —
delegates to the replica chosen by exactly one selection call per
operation (the delegated call is applied at the selected index and the
state advances by exactly one `slave` call); and a router holding a single
physical connection routes every read to connection 0 with no state
change. -/
theorem read_path_targets_slave (db : DB Conn)
    (selectF : Conn → Dest → String → List Arg → R)
    (queryxF : Conn → String → List Arg → R) (preparexF : Conn → String → R)
    (dest : Dest) (q : String) (a : List Arg) :
    db.Select selectF dest q a
      = ((db.pdbs.get? (db.slave db.pdbs.length).1).map (fun c => selectF c dest q a),
          (db.slave db.pdbs.length).2)
    ∧ db.QueryxSlave queryxF q a
      = ((db.pdbs.get? (db.slave db.pdbs.length).1).map (fun c => queryxF c q a),
          (db.slave db.pdbs.length).2)
    ∧ db.PreparexSlave preparexF q
      = ((db.pdbs.get? (db.slave db.pdbs.length).1).map (fun c => preparexF c q),
          (db.slave db.pdbs.length).2)
    ∧ (db.pdbs.length = 1 →
        db.Select selectF dest q a = ((db.pdbs.get? 0).map (fun c => selectF c dest q a), db)
        ∧ db.QueryxSlave queryxF q a = ((db.pdbs.get? 0).map (fun c => queryxF c q a), db)
        ∧ db.PreparexSlave preparexF q = ((db.pdbs.get? 0).map (fun c => preparexF c q), db)
        ∧ db.Slave = (db.pdbs.get? 0, db)) := by
  refine ⟨rfl, rfl, rfl, fun h1 => ?_⟩
  have hs : db.slave db.pdbs.length = (0, db) :=
    slave_state_of_le_one db db.pdbs.length (by omega)
  refine ⟨?_, ?_, ?_, ?_⟩ <;>
    simp [DB.Select, DB.QueryxSlave, DB.PreparexSlave, DB.Slave, hs]

/-- C4 witness: a single-connection router sends Select, QueryxSlave and
PreparexSlave to connection 0 and does not move the counter. -/
theorem read_path_targets_slave_witness :
    (DB.mk ["solo"] 9).Select call4 "dst" "q" ["x"]
      = (some (call4 "solo" "dst" "q" ["x"]), DB.mk ["solo"] 9)
    ∧ (DB.mk ["solo"] 9).QueryxSlave call3 "q" ["x"]
      = (some (call3 "solo" "q" ["x"]), DB.mk ["solo"] 9)
    ∧ (DB.mk ["solo"] 9).PreparexSlave call2 "q"
      = (some (call2 "solo" "q"), DB.mk ["solo"] 9)
    ∧ (DB.mk ["solo"] 9).Slave = (some "solo", DB.mk ["solo"] 9) := by
  have h := (read_path_targets_slave (DB.mk ["solo"] 9) call4 call3 call2
    "dst" "q" ["x"]).2.2.2 rfl
  exact ⟨h.1, h.2.1, h.2.2.1, h.2.2.2⟩

/-- C7: Exec routes to index 0 and leaves the whole router state — the
round-robin counter included — unchanged, so an Exec interleaved between
two read selections does not perturb the sequence of selected replica
indices. -/
theorem exec_does_not_perturb_counter (db : DB Conn)
    (execF : Conn → String → List Arg → R) (q : String) (a : List Arg) :
    (db.Exec execF q a).2 = db
    ∧ (db.Exec execF q a).1 = (db.pdbs.get? 0).map (fun c => execF c q a)
    ∧ ((db.Slave.2.Exec execF q a).2).Slave = db.Slave.2.Slave
    ∧ (db.Exec execF q a).2.slave db.pdbs.length = db.slave db.pdbs.length := by
  exact ⟨rfl, rfl, rfl, rfl⟩

/-- C8: the counter is an unsigned 64-bit value: a selection with n > 1
wrap-increments it modulo 2^64 and the returned index 1 + (counter mod
(n-1)) stays in [1, n-1] even across the wrap from 2^64 - 1 to 0. -/
theorem counter_wraps_mod_u64 (db : DB Conn) (n : Nat) (hn : 1 < n) :
    (db.slave n).2.count = (db.count + 1) % U64
    ∧ (db.slave n).2.count < U64
    ∧ 1 ≤ (db.slave n).1 ∧ (db.slave n).1 ≤ n - 1
    ∧ (db.count = U64 - 1 → (db.slave n).2.count = 0 ∧ (db.slave n).1 = 1) := by
  have hstep := slave_state_of_lt db n hn
  have hm : ((db.count + 1) % U64) % (n - 1) < n - 1 :=
    Nat.mod_lt _ (by omega)
  have hu : 0 < U64 := by unfold U64; positivity
  refine ⟨by rw [hstep], ?_, ?_, ?_, fun hc => ?_⟩
  · rw [hstep]
    exact Nat.mod_lt _ hu
  · rw [hstep]; omega
  · rw [hstep]; simp; omega
  · have h0 : (db.count + 1) % U64 = 0 := by
      rw [hc, Nat.sub_add_cancel (by omega)]
      exact Nat.mod_self U64
    rw [hstep]
    simp [h0]

/-- C8 witness: at the wrap point 2^64 - 1 with three connections the next
counter is 0 and the selected index is 1, inside [1, 2]. -/
theorem counter_wraps_mod_u64_witness :
    ((DB.mk ([0, 1, 2] : List Nat) (U64 - 1)).slave 3).2.count = (U64 - 1 + 1) % U64
    ∧ ((DB.mk ([0, 1, 2] : List Nat) (U64 - 1)).slave 3).2.count = 0
    ∧ ((DB.mk ([0, 1, 2] : List Nat) (U64 - 1)).slave 3).1 = 1 := by
  have h := counter_wraps_mod_u64 (DB.mk ([0, 1, 2] : List Nat) (U64 - 1)) 3 (by omega)
  exact ⟨h.1, (h.2.2.2.2 rfl).1, (h.2.2.2.2 rfl).2⟩

/-- C9: every router operation preserves the physical-connection list
(unchanged length and elements, position 0 still the primary); master-only
and administrative operations leave the whole state unchanged, and each
read-path operation advances the state by exactly one `slave` selection
call — the only modifier of the counter. -/
theorem ops_preserve_invariant (db : DB Conn)
    (execF : Conn → String → List Arg → R) (beginF : Conn → R) (driverF : Conn → R)
    (preparexF : Conn → String → R) (selectF : Conn → Dest → String → List Arg → R)
    (queryxF : Conn → String → List Arg → R) (pingF : Conn → Option Err)
    (closeF : Conn → Option Err) (setF : Conn → Int → E) (setDF : Conn → D → E)
    (dest : Dest) (q : String) (a : List Arg) (m : Int) (d : D) :
    (db.Exec execF q a).2 = db
    ∧ (db.Begin beginF).2 = db
    ∧ (db.Driver driverF).2 = db
    ∧ (db.Preparex preparexF q).2 = db
    ∧ (db.Ping pingF).2 = db
    ∧ (db.Close closeF).2 = db
    ∧ (db.SetMaxIdleConns setF m).2 = db
    ∧ (db.SetMaxOpenConns setF m).2 = db
    ∧ (db.SetConnMaxLifetime setDF d).2 = db
    ∧ db.Master = db.pdbs.get? 0
    ∧ db.Slave.2 = (db.slave db.pdbs.length).2
    ∧ (db.Select selectF dest q a).2 = (db.slave db.pdbs.length).2
    ∧ (db.QueryxSlave queryxF q a).2 = (db.slave db.pdbs.length).2
    ∧ (db.PreparexSlave preparexF q).2 = (db.slave db.pdbs.length).2
    ∧ (db.slave db.pdbs.length).2.pdbs = db.pdbs := by
  refine ⟨rfl, rfl, rfl, rfl, rfl, rfl, rfl, rfl, rfl, rfl, rfl, rfl, rfl, rfl, ?_⟩
  exact slave_pdbs db db.pdbs.length

theorem firstSome_eq_none_iff (l : List (Option Err)) :
    firstSome l = none ↔ ∀ o ∈ l, o = none := by
  induction l with
  | nil => simp [firstSome]
  | cons o rest ih =>
    cases o with
    | some e => simp [firstSome]
    | none => simp [firstSome, ih]

theorem firstSome_mem (l : List (Option Err)) (e : Err) (h : firstSome l = some e) :
    some e ∈ l := by
  induction l with
  | nil => simp [firstSome] at h
  | cons o rest ih =>
    cases o with
    | some f =>
      simp only [firstSome, Option.some.injEq] at h
      simp [h]
    | none =>
      simp only [firstSome] at h
      exact List.mem_cons_of_mem _ (ih h)

/-- C6: the scatter fan-out helper returns no error for count 0 without
invoking any work; returns no error when every work i for i < count
succeeds; returns exactly one of the failures when one or more fail; and
invokes work exactly once at every index below count and never at any
other index. -/
theorem scatter_aggregates_one_failure (count : Nat) (work : Nat → Option Err) :
    scatter 0 work = (none : Option Err)
    ∧ scatterInvocations 0 = []
    ∧ ((∀ i < count, work i = none) → scatter count work = none)
    ∧ ((∃ i, i < count ∧ work i ≠ none) →
        ∃ j, j < count ∧ work j ≠ none ∧ scatter count work = work j)
    ∧ (∀ i, (scatterInvocations count).count i = if i < count then 1 else 0) := by
  refine ⟨rfl, rfl, fun hall => ?_, fun hsome => ?_, fun i => ?_⟩
  · rw [scatter, firstSome_eq_none_iff]
    intro o ho
    obtain ⟨j, hj, rfl⟩ := List.mem_map.mp ho
    exact hall j (List.mem_range.mp hj)
  · obtain ⟨i, hi, hne⟩ := hsome
    cases hs : scatter count work with
    | none =>
      rw [scatter, firstSome_eq_none_iff] at hs
      exact absurd (hs (work i) (List.mem_map_of_mem work (List.mem_range.mpr hi))) hne
    | some e =>
      have hm := firstSome_mem _ e hs
      obtain ⟨j, hj, hje⟩ := List.mem_map.mp hm
      exact ⟨j, List.mem_range.mp hj, by simp [hje], hje.symm⟩
  · by_cases hi : i < count
    · rw [if_pos hi]
      exact List.count_eq_one_of_mem (List.nodup_range count)
        (List.mem_range.mpr hi)
    · rw [if_neg hi]
      exact List.count_eq_zero.mpr (fun hmem => hi (List.mem_range.mp hmem))

/-- C6 witness: count 0 and an all-success run return no error; a run with
failures at indices 1 and 3 of 4 returns one of those failures; each of the
4 indices is invoked exactly once. -/
theorem scatter_aggregates_one_failure_witness :
    scatter 0 (fun _ => some "boom") = (none : Option String)
    ∧ scatter 4 (fun _ => (none : Option String)) = none
    ∧ (∃ j, j < 4 ∧ (fun i => if i % 2 = 1 then some "boom" else none) j ≠ none
        ∧ scatter 4 (fun i => if i % 2 = 1 then some "boom" else none)
            = (fun i => if i % 2 = 1 then some "boom" else none) j)
    ∧ (scatterInvocations 4).count 2 = 1
    ∧ (scatterInvocations 4).count 7 = 0 := by
  have h0 := scatter_aggregates_one_failure 0 (fun _ => some ("boom" : String))
  have hok := scatter_aggregates_one_failure 4 (fun _ => (none : Option String))
  have hfail := scatter_aggregates_one_failure 4
    (fun i => if i % 2 = 1 then some "boom" else none)
  refine ⟨h0.1, hok.2.2.1 (fun _ _ => rfl), ?_, ?_, ?_⟩
  · exact hfail.2.2.2.1 ⟨1, by omega, by simp⟩
  · have := hfail.2.2.2.2 2
    simpa using this
  · have := hfail.2.2.2.2 7
    simpa using this

theorem splitSep_ne_nil (sep : Char) (t : List Char) : splitSep sep t ≠ [] := by
  induction t with
  | nil => simp [splitSep]
  | cons c cs ih =>
    simp only [splitSep]
    split
    · simp
    · split
      · simp
      · simp

theorem all_ok_structure (l : List (Except Err Conn))
    (h : ∀ r ∈ l, exceptError r = none) :
    ∃ cs : List Conn, l = cs.map Except.ok ∧ l.filterMap Except.toOption = cs := by
  induction l with
  | nil => exact ⟨[], rfl, rfl⟩
  | cons r rest ih =>
    obtain ⟨cs, h1, h2⟩ := ih (fun x hx => h x (List.mem_cons_of_mem _ hx))
    cases r with
    | error e =>
      have := h _ (List.mem_cons_self _ _)
      simp [exceptError] at this
    | ok c =>
      refine ⟨c :: cs, by simp [h1], ?_⟩
      simp [List.filterMap_cons, Except.toOption, h2]

theorem Open_ok_inv (openF : String → List Char → Except Err Conn)
    (drv ds : String) (db : DB Conn) (h : Open openF drv ds = .ok db) :
    db.count = 0
    ∧ db.pdbs.length = (splitSep ';' ds.toList).length
    ∧ ∀ i s, (splitSep ';' ds.toList).get? i = some s →
        db.pdbs.get? i = (openF drv s).toOption := by
  unfold Open at h
  split at h
  · exact absurd h (by simp)
  · rename_i hfs
    simp only [Except.ok.injEq] at h
    have hall : ∀ r ∈ (splitSep ';' ds.toList).map (fun dsn => openF drv dsn),
        exceptError r = none := by
      intro r hr
      exact (firstSome_eq_none_iff _).mp hfs _ (List.mem_map_of_mem _ hr)
    obtain ⟨cs, hcs, hfm⟩ := all_ok_structure _ hall
    have hcslen : cs.length = (splitSep ';' ds.toList).length := by
      have hl := congrArg List.length hcs
      simpa using hl.symm
    have hpdbs : db.pdbs = cs := by
      rw [← h]
      exact hfm
    refine ⟨?_, ?_, ?_⟩
    · exact (congrArg DB.count h).symm
    · rw [hpdbs]
      exact hcslen
    · intro i s hi
      rw [hpdbs]
      have hri : ((splitSep ';' ds.toList).map (fun dsn => openF drv dsn)).get? i
          = some (openF drv s) := by
        rw [List.get?_map, hi]
        rfl
      rw [hcs, List.get?_map] at hri
      cases hci : cs.get? i with
      | none => rw [hci] at hri; simp at hri
      | some c =>
        rw [hci] at hri
        simp only [Option.map_some', Option.some.injEq] at hri
        rw [← hri]
        rfl

/-- C5: Open splits the data-source string on ';', opens one physical
database per segment, and on success returns a router holding the opened
connections in input order (position 0 is the first segment, the primary)
with a zero counter; if any open fails, it returns no router, only an
aggregated error. -/
theorem open_splits_and_aggregates (openF : String → List Char → Except Err Conn)
    (drv ds : String) :
    ((∀ s ∈ splitSep ';' ds.toList, exceptError (openF drv s) = none) →
      ∃ db : DB Conn, Open openF drv ds = .ok db
        ∧ db.count = 0
        ∧ db.pdbs.length = (splitSep ';' ds.toList).length
        ∧ ∀ i s, (splitSep ';' ds.toList).get? i = some s →
            db.pdbs.get? i = (openF drv s).toOption)
    ∧ ((∃ s ∈ splitSep ';' ds.toList, exceptError (openF drv s) ≠ none) →
        ∃ e, Open openF drv ds = .error e) := by
  constructor
  · intro hall
    cases hres : Open openF drv ds with
    | error e =>
      unfold Open at hres
      split at hres
      · rename_i hfs
        have hnone : firstSome (((splitSep ';' ds.toList).map
            (fun dsn => openF drv dsn)).map exceptError) = none := by
          rw [firstSome_eq_none_iff]
          intro o ho
          obtain ⟨r, hr, rfl⟩ := List.mem_map.mp ho
          obtain ⟨s, hs, rfl⟩ := List.mem_map.mp hr
          exact hall s hs
        rw [hfs] at hnone
        exact absurd hnone (by simp)
      · exact absurd hres (by simp)
    | ok db =>
      exact ⟨db, rfl, Open_ok_inv openF drv ds db hres⟩
  · intro hsome
    cases hres : Open openF drv ds with
    | error e => exact ⟨e, rfl⟩
    | ok db =>
      obtain ⟨s, hs, hne⟩ := hsome
      unfold Open at hres
      split at hres
      · exact absurd hres (by simp)
      · rename_i hfs
        rw [firstSome_eq_none_iff] at hfs
        refine absurd (hfs (exceptError (openF drv s)) ?_) hne
        exact List.mem_map_of_mem _ (List.mem_map_of_mem _ hs)

/-- C5 witness: "a;b;c" opens three connections in input order with the
first segment at position 0 and counter 0; a failing open ("a;;b" with a
driver that rejects empty segments) yields an error and no router. -/
theorem open_splits_and_aggregates_witness :
    (∃ db : DB (List Char), Open openOk "drv" "a;b;c" = .ok db
      ∧ db.count = 0
      ∧ db.pdbs.length = (splitSep ';' "a;b;c".toList).length
      ∧ ∀ i s, (splitSep ';' "a;b;c".toList).get? i = some s →
          db.pdbs.get? i = (openOk "drv" s).toOption)
    ∧ (∃ e, Open openNonEmpty "drv" "a;;b" = .error e) := by
  constructor
  · exact (open_splits_and_aggregates openOk "drv" "a;b;c").1 (by decide)
  · exact (open_splits_and_aggregates openNonEmpty "drv" "a;;b").2
      ⟨[], by decide, by decide⟩

/-- C10: splitting any input on ';' yields at least one segment, so a
successfully opened router holds at least one physical connection and
Master, Driver, Begin, Exec and the slave selection never index outside
the list; the empty data-source string is one empty primary target, never
a too-few-targets rejection. -/
theorem open_router_never_empty (openF : String → List Char → Except Err Conn)
    (drv ds : String) (db : DB Conn) (execF : Conn → String → List Arg → R)
    (beginF : Conn → R) (q : String) (a : List Arg)
    (h : Open openF drv ds = .ok db) :
    (∀ t : List Char, splitSep ';' t ≠ [])
    ∧ 1 ≤ db.pdbs.length
    ∧ db.Master.isSome
    ∧ (db.Exec execF q a).1.isSome
    ∧ (db.Begin beginF).1.isSome
    ∧ (db.slave db.pdbs.length).1 < db.pdbs.length
    ∧ db.Slave.1.isSome
    ∧ splitSep ';' (String.toList "") = [[]]
    ∧ (∀ c : Conn, openF drv [] = .ok c →
        Open openF drv "" = .ok (DB.mk [c] 0)) := by
  have hlen : db.pdbs.length = (splitSep ';' ds.toList).length :=
    (Open_ok_inv openF drv ds db h).2.1
  have hne : splitSep ';' ds.toList ≠ [] := splitSep_ne_nil ';' ds.toList
  have hpos : 1 ≤ db.pdbs.length := by
    rw [hlen]
    exact List.length_pos.mpr hne
  have hget0 : (db.pdbs.get? 0).isSome := by
    have hno : db.pdbs.get? 0 ≠ none := by
      intro hnone
      rw [List.get?_eq_none] at hnone
      omega
    exact Option.ne_none_iff_isSome.mp hno
  have hslt : (db.slave db.pdbs.length).1 < db.pdbs.length :=
    slave_lt db db.pdbs.length hpos
  refine ⟨fun t => splitSep_ne_nil ';' t, hpos, hget0, ?_, ?_, hslt, ?_, rfl, ?_⟩
  · show ((db.pdbs.get? 0).map (fun c => execF c q a)).isSome
    cases hg : db.pdbs.get? 0 with
    | none => rw [hg] at hget0; simp at hget0
    | some c => simp
  · show ((db.pdbs.get? 0).map beginF).isSome
    cases hg : db.pdbs.get? 0 with
    | none => rw [hg] at hget0; simp at hget0
    | some c => simp
  · show (db.pdbs.get? (db.slave db.pdbs.length).1).isSome
    have hno : db.pdbs.get? (db.slave db.pdbs.length).1 ≠ none := by
      intro hnone
      rw [List.get?_eq_none] at hnone
      omega
    exact Option.ne_none_iff_isSome.mp hno
  · intro c hc
    have hsplit : splitSep ';' (String.toList "") = [[]] := rfl
    unfold Open
    rw [hsplit]
    simp [hc, exceptError, firstSome, Except.toOption]

/-- C10 witness: a router opened from "a;b" has two connections and safe
accessors, and the empty data-source string opens as one empty primary. -/
theorem open_router_never_empty_witness :
    (Open openOk "drv" "a;b" = .ok (DB.mk [['a'], ['b']] 0))
    ∧ (1 ≤ (DB.mk [['a'], ['b']] 0).pdbs.length
      ∧ (DB.mk [['a'], ['b']] 0).Master.isSome
      ∧ ((DB.mk [['a'], ['b']] 0).slave 2).1 < 2
      ∧ (DB.mk [['a'], ['b']] 0).Slave.1.isSome
      ∧ Open openOk "drv" "" = .ok (DB.mk [([] : List Char)] 0)) := by
  have h := open_router_never_empty openOk "drv" "a;b" (DB.mk [['a'], ['b']] 0)
    (fun c _ _ => c) (fun c => c) "q" ([] : List Nat) rfl
  exact ⟨rfl, h.2.1, h.2.2.1, h.2.2.2.2.2.1, h.2.2.2.2.2.2.1,
    h.2.2.2.2.2.2.2.2 [] rfl⟩

end Nap
